import Mathlib

/-!
# Verification of the captain-hook event-emitter core

Shallow embedding of `src/captain-hook.js`, a configurable event emitter
factory.  The factory returns a capability object with four operations:

* `on(eventname, callable, options)` — build a handler record and insert it,
  keeping the per-event list sorted by priority descending;
* `once(eventname, callable, options)` — force `options.once = true` (mutating
  the caller's options object) and delegate to `on`;
* `off(eventname, tag)` — remove the first record whose `tag` strictly equals
  the supplied tag, guarded by a falsiness check on the tag;
* `_emit(eventname, ...args)` — invoke every handler of the live list with its
  recorded context, collect the return values, then remove all `once` records
  in a single cleanup pass.

Modelling conventions:

* The handler store (`_handlers` / the closed-over `privatehandlers` object)
  is a total function `String → List HandlerRecord`; an absent event key is
  modelled as the empty list (a JS array is never removed once created, and an
  empty array behaves observably like an absent key for every operation).
* State mutation is modelled by explicit state passing: each operation takes a
  store and returns the updated store.
* JS `undefined` option fields are `Option.none`.  The falsy-default
  expressions of the source are translated field by field:
  `options.priority || 10` maps `none` *and* `some 0` to `10` (`0` is falsy),
  `options.once || false` is `Option.getD false`, and
  `options.context || this` is `Option.getD self` (contexts in this model are
  host objects, which are always truthy in JS).
* Handler callables are a deep embedding: a handler either purely computes a
  return value from its bound receiver and the dispatch arguments, or in
  addition registers another handler while it runs (the re-entrant case the
  dispatch cleanup pass has to cope with).  This is the fragment of handler
  behaviour the spec discusses.
* JS `Array.prototype.sort` with the comparator `(a, b) => b.priority - a.priority`
  is a stable sort consistent with "priority descending"; it is modelled by
  the stable `List.insertionSort` with the relation `b.priority ≤ a.priority`.
* `Array.prototype.forEach` captures the length once, then reads the live
  array at each index, skipping indices that no longer exist; `emitIter`
  reproduces exactly that, so in-flight mutations of the list by a handler are
  visible to the remainder of the iteration.
-/

namespace CaptainHook

/-- Per-registration options record (the `options` parameter of `on`);
a `none` field models a JS property that is `undefined`. -/
structure Options (γ : Type) where
  tag : Option String := none
  priority : Option Int := none
  context : Option γ := none
  once : Option Bool := none
  deriving Repr

/-- Deep embedding of handler callables over contexts `γ`, dispatch arguments
`α` and return values `ρ`.  `pure f` returns `f this args` and has no effect.
`withRegister ev self cb opts f` additionally performs
`this[on_prop](ev, cb, opts)` (with registering object `self`) while it runs,
and then returns `f this args` — the re-entrant registration scenario. -/
inductive Callable (γ α ρ : Type) where
  | pure (f : γ → List α → ρ) : Callable γ α ρ
  | withRegister (ev : String) (self : γ) (cb : Callable γ α ρ) (opts : Options γ)
      (f : γ → List α → ρ) : Callable γ α ρ

/-- One registered subscription, as built by `on`:
`{ callable, tag: options.tag, priority: options.priority || 10,
   context: options.context || this, once: options.once || false }`. -/
structure HandlerRecord (γ α ρ : Type) where
  callable : Callable γ α ρ
  tag : Option String
  priority : Int
  context : γ
  once : Bool

/-- The handler store: mapping from event name to the ordered list of handler
records (absent keys are the empty list). -/
def Store (γ α ρ : Type) : Type := String → List (HandlerRecord γ α ρ)

/-- The store before any registration (fresh `{}` / absent `_handlers`). -/
def emptyStore (γ α ρ : Type) : Store γ α ρ := fun _ => []

/-- Replace the list stored under one event name. -/
def updateStore (s : Store γ α ρ) (ev : String) (l : List (HandlerRecord γ α ρ)) :
    Store γ α ρ :=
  fun e => if e = ev then l else s e

/-- Sort order used by registration: the comparator
`(a, b) => (b.priority - a.priority)` keeps `a` before `b` exactly when
`b.priority ≤ a.priority` (priority descending, ties stable). -/
def hsle (a b : HandlerRecord γ α ρ) : Prop := b.priority ≤ a.priority

instance : DecidableRel (@hsle γ α ρ) := fun a b => Int.decLe b.priority a.priority

instance : IsTotal (HandlerRecord γ α ρ) hsle :=
  ⟨fun a b => le_total b.priority a.priority⟩

instance : IsTrans (HandlerRecord γ α ρ) hsle :=
  ⟨fun _ _ _ hab hbc => le_trans hbc hab⟩

/-- Model of `handlers[eventname].sort((a, b) => (b.priority - a.priority))`:
a stable sort consistent with the comparator. -/
def sortHandlers (l : List (HandlerRecord γ α ρ)) : List (HandlerRecord γ α ρ)
    :=
  List.insertionSort hsle l

/-- The handler record constructed at the top of `on`.  `options.priority || 10`
treats the falsy `0` (and an absent field) as "unset"; `options.once || false`
defaults to `false`; `options.context || this` defaults to the registering
object `self`. -/
def mkHandler (self : γ) (callable : Callable γ α ρ) (options : Options γ) :
    HandlerRecord γ α ρ :=
  { callable := callable
    tag := options.tag
    priority := match options.priority with
      | none => 10
      | some p => if p = 0 then 10 else p
    context := options.context.getD self
    once := options.once.getD false }

/-- The register operation `on(eventname, callable, options)` invoked on
object `self`: build the record, append it to the event's list (creating the
list when absent — modelled by the empty list), then re-sort the whole list by
priority descending. -/
def «on» (s : Store γ α ρ) (self : γ) (eventname : String)
    (callable : Callable γ α ρ) (options : Options γ) : Store γ α ρ :=
  updateStore s eventname
    (sortHandlers (s eventname ++ [mkHandler self callable options]))

/-- The register-once operation: `const opts = options; opts.once = true;
this[on_prop](eventname, callable, opts)`.  Since `opts` aliases the caller's
`options` object, the assignment mutates it; the second component of the
result is the caller-visible state of that options object after the call. -/
def once (s : Store γ α ρ) (self : γ) (eventname : String)
    (callable : Callable γ α ρ) (options : Options γ) :
    Store γ α ρ × Options γ :=
  («on» s self eventname callable { options with once := some true },
   { options with once := some true })

/-- The scan loop of `off`: first index `i ≥ start` (counting from `start`)
with `eventhandlers[i].tag === tag`, if any. -/
def findTagIdx (tag : Option String) :
    List (HandlerRecord γ α ρ) → Nat → Option Nat
  | [], _ => none
  | r :: rest, i => if r.tag = tag then some i else findTagIdx tag rest (i + 1)

/-- The deregister operation `off(eventname, tag)`.  `if (!tag || !handlers ||
!handlers[eventname]) return;` — a falsy tag (`undefined` or the empty string)
or an absent list is a silent no-op (the absent list is subsumed by the scan
finding nothing in `[]`).  Otherwise scan for the first record whose tag
strictly equals `tag` and `splice` exactly that index out. -/
def off (s : Store γ α ρ) (eventname : String) (tag : Option String) :
    Store γ α ρ :=
  if tag = none ∨ tag = some "" then s
  else
    match findTagIdx tag (s eventname) 0 with
    | none => s
    | some i =>
        updateStore s eventname
          ((s eventname).take i ++ (s eventname).drop (i + 1))

/-- Invoking one callable: `eventhandler.callable.call(eventhandler.context,
...args)`, where the body may re-enter `on`.  Returns the handler's return
value and the store after the handler's effects. -/
def invoke (c : Callable γ α ρ) (ctx : γ) (args : List α) (s : Store γ α ρ) :
    ρ × Store γ α ρ :=
  match c with
  | .pure f => (f ctx args, s)
  | .withRegister ev self cb opts f => (f ctx args, «on» s self ev cb opts)

/-- One `forEach` visit at index `k` of the live list: fetch
`eventhandler = handlers[eventname][k]` and run
`eventhandler.callable.call(eventhandler.context, ...args)`. -/
def invokeAt (s : Store γ α ρ) (eventname : String) (args : List α) (k : Nat)
    (hk : k < (s eventname).length) : ρ × Store γ α ρ :=
  invoke ((s eventname).get ⟨k, hk⟩).callable ((s eventname).get ⟨k, hk⟩).context
    args s

/-- The `forEach` loop of `_emit`: `n` indices remain to visit, `k` is the
next index.  The length bound was captured before iteration started, but each
visit re-reads the live list, so records moved by a re-entrant registration's
re-sort are seen (and indices beyond the current length are skipped). -/
def emitIter (eventname : String) (args : List α) :
    Nat → Nat → Store γ α ρ → List ρ → Store γ α ρ × List ρ
  | 0, _, s, retvals => (s, retvals)
  | n + 1, k, s, retvals =>
    if hk : k < (s eventname).length then
      emitIter eventname args n (k + 1) (invokeAt s eventname args k hk).2
        (retvals ++ [(invokeAt s eventname args k hk).1])
    else
      emitIter eventname args n (k + 1) s retvals

/-- The dispatch operation `_emit(eventname, ...args)`: early return of `[]`
when there is no handler list; otherwise invoke the handlers via the
`forEach` loop, then remove every record flagged `once` (the backwards splice
loop over the post-invocation list is exactly a filter keeping the non-`once`
records).  Returns the collected return values and the final store. -/
def emit (s : Store γ α ρ) (eventname : String) (args : List α) :
    List ρ × Store γ α ρ :=
  if (s eventname).isEmpty then ([], s)
  else
    ((emitIter eventname args (s eventname).length 0 s []).2,
     updateStore (emitIter eventname args (s eventname).length 0 s []).1 eventname
       (((emitIter eventname args (s eventname).length 0 s []).1 eventname).filter
         (fun h => !h.once)))

/-- Return-value component of a callable (both constructors carry one). -/
def retOf : Callable γ α ρ → γ → List α → ρ
  | .pure f => f
  | .withRegister _ _ _ _ f => f

/-- A callable is pure when invoking it leaves the store untouched. -/
def Callable.isPure : Callable γ α ρ → Bool
  | .pure _ => true
  | .withRegister _ _ _ _ _ => false

/-! ## The public-storage layer

When `handlers_prop` is a string, each host object owns (lazily) its own store
under that property name; an environment maps each host to its store.  When
`handlers_prop` is `null`, all hosts sharing the capability instance share the
single closed-over `privatehandlers` store, and the dispatch operation ignores
`this` entirely — which is why the core operations above take the store as an
explicit argument and `self` only where the source reads `this` for context
defaulting. -/

/-- Per-host stores under the public-storage policy (`this[handlersPropName]`);
a host that has not registered yet has the empty store. -/
def Env (γ α ρ : Type) : Type := γ → Store γ α ρ

/-- Replace one host's store. -/
def updateEnv [DecidableEq γ] (env : Env γ α ρ) (host : γ) (s : Store γ α ρ) :
    Env γ α ρ :=
  fun x => if x = host then s else env x

/-- Register through a host under the public-storage policy: the record goes
into the registering host's own store. -/
def onPublic [DecidableEq γ] (env : Env γ α ρ) (self : γ) (eventname : String)
    (callable : Callable γ α ρ) (options : Options γ) : Env γ α ρ :=
  updateEnv env self («on» (env self) self eventname callable options)

/-- Dispatch through a host under the public-storage policy: only that host's
own store is consulted and updated. -/
def emitPublic [DecidableEq γ] (env : Env γ α ρ) (self : γ) (eventname : String)
    (args : List α) : List ρ × Env γ α ρ :=
  ((emit (env self) eventname args).1,
   updateEnv env self (emit (env self) eventname args).2)

/-- Dispatch through a host under the private-storage policy
(`handlers = privatehandlers`): the receiver `self` is ignored. -/
def emitPrivate (s : Store γ α ρ) (_self : γ) (eventname : String)
    (args : List α) : List ρ × Store γ α ρ :=
  emit s eventname args

/-! ## Concrete stores used to exercise the theorems

Contexts and hosts are object identities (`Nat`), dispatch arguments are
`Nat`, handler return values are `String`. -/

/-- Store of the spec's example scenario: handler A with priority 2 returning
`"a"` and handler B with priority 9 returning `"b"`, registered on the same
event `"e"` by object `0`. -/
def exampleStoreAB : Store Nat Nat String :=
  «on» («on» (emptyStore Nat Nat String) 0 "e" (.pure fun _ _ => "a")
      { priority := some 2 })
    0 "e" (.pure fun _ _ => "b") { priority := some 9 }

/-- Store with two records sharing the tag `"t"` on event `"e"`, priorities 9
and 5. -/
def twoTagStore : Store Nat Nat String :=
  fun e =>
    if e = "e" then
      [{ callable := .pure fun _ _ => "h1", tag := some "t", priority := 9,
         context := 0, once := false },
       { callable := .pure fun _ _ => "h2", tag := some "t", priority := 5,
         context := 0, once := false }]
    else []

/-- A handler that, when invoked, registers a one-time handler (returning
`"rb"`, priority 7) for event `"e"` and returns `"ra"`. -/
def reRegCallable : Callable Nat Nat String :=
  .withRegister "e" 0 (.pure fun _ _ => "rb")
    { priority := some 7, once := some true } (fun _ _ => "ra")

/-- Record of priority 10 holding `reRegCallable`. -/
def recA : HandlerRecord Nat Nat String :=
  { callable := reRegCallable, tag := none, priority := 10, context := 0,
    once := false }

/-- Plain record of priority 5 returning `"rc"`. -/
def recC : HandlerRecord Nat Nat String :=
  { callable := .pure fun _ _ => "rc", tag := none, priority := 5, context := 0,
    once := false }

/-- Event `"e"` holds `recA` (priority 10, re-registering) and `recC`
(priority 5): the once-handler registered mid-dispatch lands at priority 7,
between the already-visited index and the captured iteration bound. -/
def reentrantStore : Store Nat Nat String :=
  fun e => if e = "e" then [recA, recC] else []

/-- Event `"e"` holds only `recA`: the once-handler registered mid-dispatch
lands beyond the captured iteration bound and is never invoked. -/
def lowReentrantStore : Store Nat Nat String :=
  fun e => if e = "e" then [recA] else []

/-! ## Basic lemmas about the operations -/

theorem sortHandlers_sorted (l : List (HandlerRecord γ α ρ)) :
    List.Sorted hsle (sortHandlers l) :=
  List.sorted_insertionSort hsle l

theorem sortHandlers_perm (l : List (HandlerRecord γ α ρ)) :
    (sortHandlers l).Perm l :=
  List.perm_insertionSort hsle l

theorem on_apply_self (s : Store γ α ρ) (self : γ) (ev : String)
    (cb : Callable γ α ρ) (opts : Options γ) :
    «on» s self ev cb opts ev = sortHandlers (s ev ++ [mkHandler self cb opts]) := by
  simp [«on», updateStore]

theorem on_apply_other (s : Store γ α ρ) (self : γ) (ev : String)
    (cb : Callable γ α ρ) (opts : Options γ) (e : String) (he : e ≠ ev) :
    «on» s self ev cb opts e = s e := by
  simp [«on», updateStore, he]

theorem on_sorted (s : Store γ α ρ) (self : γ) (ev : String)
    (cb : Callable γ α ρ) (opts : Options γ) :
    List.Sorted hsle («on» s self ev cb opts ev) := by
  rw [on_apply_self]; exact sortHandlers_sorted _

theorem on_perm (s : Store γ α ρ) (self : γ) (ev : String)
    (cb : Callable γ α ρ) (opts : Options γ) :
    («on» s self ev cb opts ev).Perm (s ev ++ [mkHandler self cb opts]) := by
  rw [on_apply_self]; exact sortHandlers_perm _

theorem invoke_pure (c : Callable γ α ρ) (hp : c.isPure = true) (ctx : γ)
    (args : List α) (s : Store γ α ρ) :
    invoke c ctx args s = (retOf c ctx args, s) := by
  cases c with
  | pure f => rfl
  | withRegister ev self cb opts f => simp [Callable.isPure] at hp

theorem invokeAt_pure (s : Store γ α ρ) (ev : String) (args : List α) (k : Nat)
    (hk : k < (s ev).length) (hp : ∀ r ∈ s ev, r.callable.isPure = true) :
    invokeAt s ev args k hk =
      (retOf ((s ev).get ⟨k, hk⟩).callable ((s ev).get ⟨k, hk⟩).context args, s) := by
  unfold invokeAt
  exact invoke_pure _ (hp _ (List.get_mem (s ev) k hk)) _ _ _

theorem emitIter_pure (ev : String) (args : List α) (s : Store γ α ρ)
    (hp : ∀ r ∈ s ev, r.callable.isPure = true) :
    ∀ (n k : Nat) (retvals : List ρ),
      emitIter ev args n k s retvals =
        (s, retvals ++
          (((s ev).drop k).take n).map (fun r => retOf r.callable r.context args)) := by
  intro n
  induction n with
  | zero => intro k retvals; simp [emitIter]
  | succ n ih =>
    intro k retvals
    by_cases hk : k < (s ev).length
    · have hdrop : (s ev).drop k = (s ev).get ⟨k, hk⟩ :: (s ev).drop (k + 1) :=
        List.drop_eq_getElem_cons hk
      rw [emitIter, dif_pos hk, invokeAt_pure s ev args k hk hp, ih (k + 1) _]
      rw [hdrop, List.take_succ_cons, List.map_cons]
      simp [List.append_assoc]
    · have hdrop : (s ev).drop k = [] := List.drop_eq_nil_of_le (le_of_not_lt hk)
      have hdrop' : (s ev).drop (k + 1) = [] :=
        List.drop_eq_nil_of_le (Nat.le_succ_of_le (le_of_not_lt hk))
      rw [emitIter, dif_neg hk, ih (k + 1) retvals]
      rw [hdrop, hdrop']
      simp

theorem emit_retvals_pure (s : Store γ α ρ) (ev : String) (args : List α)
    (hp : ∀ r ∈ s ev, r.callable.isPure = true) :
    (emit s ev args).1 = (s ev).map (fun r => retOf r.callable r.context args) := by
  by_cases h0 : (s ev).isEmpty = true
  · rw [List.isEmpty_iff] at h0
    simp [emit, h0]
  · unfold emit
    rw [if_neg h0, emitIter_pure ev args s hp]
    simp

theorem emit_store_pure (s : Store γ α ρ) (ev : String) (args : List α)
    (hp : ∀ r ∈ s ev, r.callable.isPure = true) (e : String) :
    (emit s ev args).2 e =
      if e = ev then (s ev).filter (fun h => !h.once) else s e := by
  by_cases h0 : (s ev).isEmpty = true
  · rw [List.isEmpty_iff] at h0
    by_cases he : e = ev <;> simp [emit, h0, he]
  · unfold emit
    rw [if_neg h0, emitIter_pure ev args s hp]
    by_cases he : e = ev <;> simp [updateStore, he]

theorem emit_empty (s : Store γ α ρ) (ev : String) (args : List α)
    (h0 : s ev = []) : emit s ev args = ([], s) := by
  simp [emit, h0]

theorem emit_no_once (s : Store γ α ρ) (ev : String) (args : List α) :
    ∀ r ∈ (emit s ev args).2 ev, r.once = false := by
  intro r hr
  by_cases h0 : (s ev).isEmpty = true
  · rw [List.isEmpty_iff] at h0
    rw [emit_empty s ev args h0] at hr
    have hr' : r ∈ s ev := hr
    rw [h0] at hr'
    cases hr'
  · unfold emit at hr
    rw [if_neg h0] at hr
    have hr' : r ∈ ((emitIter ev args (s ev).length 0 s []).1 ev).filter
        (fun h => !h.once) := by
      simpa [updateStore] using hr
    have := List.of_mem_filter hr'
    simpa using this

/-! ## Lemmas about deregistration -/

theorem findTagIdx_shift (t : Option String) (l : List (HandlerRecord γ α ρ)) :
    ∀ i : Nat, findTagIdx t l (i + 1) = (findTagIdx t l i).map (· + 1) := by
  induction l with
  | nil => intro i; rfl
  | cons r rest ih =>
    intro i
    by_cases hr : r.tag = t
    · simp [findTagIdx, hr]
    · simp only [findTagIdx, hr, if_neg, not_false_iff]
      exact ih (i + 1)

theorem findTagIdx_none (t : Option String) (l : List (HandlerRecord γ α ρ))
    (h : ∀ r ∈ l, r.tag ≠ t) : ∀ i : Nat, findTagIdx t l i = none := by
  induction l with
  | nil => intro i; rfl
  | cons r rest ih =>
    intro i
    have hr : r.tag ≠ t := h r (List.mem_cons_self r rest)
    simp only [findTagIdx, hr, if_neg, not_false_iff]
    exact ih (fun q hq => h q (List.mem_cons_of_mem r hq)) (i + 1)

/-- The find-then-splice of `off` computes exactly `List.eraseP`: the first
record with a strictly equal tag is removed and everything else is kept. -/
theorem splice_eq_eraseP (t : Option String) :
    ∀ l : List (HandlerRecord γ α ρ),
      (match findTagIdx t l 0 with
       | none => l
       | some i => l.take i ++ l.drop (i + 1)) =
      l.eraseP (fun r => decide (r.tag = t)) := by
  intro l
  induction l with
  | nil => rfl
  | cons r rest ih =>
    by_cases hr : r.tag = t
    · simp [findTagIdx, hr, List.eraseP_cons]
    · simp only [findTagIdx, hr, if_neg, not_false_iff, List.eraseP_cons,
        decide_eq_true_eq, cond_eq_if]
      rw [findTagIdx_shift t rest 0]
      cases hfind : findTagIdx t rest 0 with
      | none =>
        rw [hfind] at ih
        simp [hr, ← ih]
      | some j =>
        rw [hfind] at ih
        simp only [Option.map_some, List.take_succ_cons, List.drop_succ_cons,
          List.cons_append]
        simp [hr, ← ih]

theorem off_falsy_none (s : Store γ α ρ) (ev : String) : off s ev none = s := by
  simp [off]

theorem off_falsy_empty (s : Store γ α ρ) (ev : String) :
    off s ev (some "") = s := by
  simp [off]

theorem off_apply_self (s : Store γ α ρ) (ev : String) (t : Option String)
    (ht : ¬(t = none ∨ t = some "")) :
    off s ev t ev = (s ev).eraseP (fun r => decide (r.tag = t)) := by
  unfold off
  rw [if_neg ht, ← splice_eq_eraseP t (s ev)]
  cases hfind : findTagIdx t (s ev) 0 with
  | none => rfl
  | some i => simp [updateStore]

theorem off_apply_other (s : Store γ α ρ) (ev : String) (t : Option String)
    (e : String) (he : e ≠ ev) : off s ev t e = s e := by
  unfold off
  by_cases ht : t = none ∨ t = some ""
  · rw [if_pos ht]
  · rw [if_neg ht]
    cases hfind : findTagIdx t (s ev) 0 with
    | none => rfl
    | some i => simp [updateStore, he]

theorem off_no_match (s : Store γ α ρ) (ev : String) (t : Option String)
    (h : ∀ r ∈ s ev, r.tag ≠ t) : off s ev t = s := by
  unfold off
  by_cases ht : t = none ∨ t = some ""
  · rw [if_pos ht]
  · rw [if_neg ht, findTagIdx_none t (s ev) h 0]

/-! ## Purity and membership helpers -/

theorem mem_on_self (s : Store γ α ρ) (self : γ) (ev : String)
    (cb : Callable γ α ρ) (opts : Options γ) :
    mkHandler self cb opts ∈ «on» s self ev cb opts ev :=
  (on_perm s self ev cb opts).mem_iff.mpr
    (List.mem_append.mpr (Or.inr (List.mem_singleton_self _)))

theorem pure_store_on (s : Store γ α ρ) (self : γ) (ev : String)
    (cb : Callable γ α ρ) (opts : Options γ) (hcb : cb.isPure = true)
    (hp : ∀ q ∈ s ev, q.callable.isPure = true) :
    ∀ q ∈ «on» s self ev cb opts ev, q.callable.isPure = true := by
  intro q hq
  rcases List.mem_append.mp ((on_perm s self ev cb opts).mem_iff.mp hq) with h | h
  · exact hp q h
  · rcases List.mem_singleton.mp h with rfl
    exact hcb

/-! ## Claim theorems -/

/-- C1: for every event with registered (non-re-entrant) handlers, a dispatch
call invokes every handler currently in the event's list in list order — which
is strictly descending priority order, the list being sorted — passing the
dispatch arguments positionally and unmodified to every handler, and returns
the handlers' return values in invocation order.  In particular, with handler
A of priority 2 returning `"a"` and handler B of priority 9 returning `"b"` on
the same event, dispatch returns `["b", "a"]`. -/
theorem emit_invokes_in_descending_priority_order :
    (∀ (γ α ρ : Type) (s : Store γ α ρ) (ev : String) (args : List α),
        (∀ r ∈ s ev, r.callable.isPure = true) →
        List.Sorted hsle (s ev) →
        (emit s ev args).1 =
            (s ev).map (fun r => retOf r.callable r.context args) ∧
          List.Sorted (fun p q : Int => q ≤ p)
            ((s ev).map (fun r => r.priority))) ∧
    (emit exampleStoreAB "e" []).1 = ["b", "a"] := by
  constructor
  · intro γ α ρ s ev args hp hsorted
    refine ⟨emit_retvals_pure s ev args hp, ?_⟩
    exact List.Pairwise.map _ (fun a b hab => hab) hsorted
  · decide

/-- Witness for C1 at the example store (both hypotheses discharged by
computation). -/
theorem emit_invokes_in_descending_priority_order_witness :
    (emit exampleStoreAB "e" ([] : List Nat)).1 =
      (exampleStoreAB "e").map (fun r => retOf r.callable r.context []) :=
  (emit_invokes_in_descending_priority_order.1 Nat Nat String exampleStoreAB "e"
    [] (by decide) (by decide)).1

/-- C3: after every register operation the handler list of the registered
event is sorted by priority descending; the insertion appends the new record
and re-sorts the full list (a permutation of the old list plus the new
record), other events are untouched, so sortedness of every event's list is
preserved at all times. -/
theorem on_keeps_lists_sorted (γ α ρ : Type) (s : Store γ α ρ) (self : γ)
    (ev : String) (cb : Callable γ α ρ) (opts : Options γ) :
    List.Sorted hsle («on» s self ev cb opts ev) ∧
    («on» s self ev cb opts ev).Perm (s ev ++ [mkHandler self cb opts]) ∧
    (∀ e, e ≠ ev → «on» s self ev cb opts e = s e) ∧
    ((∀ e, List.Sorted hsle (s e)) →
      ∀ e, List.Sorted hsle («on» s self ev cb opts e)) := by
  refine ⟨on_sorted s self ev cb opts, on_perm s self ev cb opts,
    fun e he => on_apply_other s self ev cb opts e he, ?_⟩
  intro hs e
  by_cases he : e = ev
  · rw [he]; exact on_sorted s self ev cb opts
  · rw [on_apply_other s self ev cb opts e he]; exact hs e

/-- Witness for C3: registering into the empty store keeps an unrelated
event's (empty, hence sorted) list sorted, via the preservation conjunct. -/
theorem on_keeps_lists_sorted_witness :
    List.Sorted hsle
      ((«on» (emptyStore Nat Nat String) 0 "e" (.pure fun _ _ => "a") {}) "f") :=
  (on_keeps_lists_sorted Nat Nat String (emptyStore Nat Nat String) 0 "e"
    (.pure fun _ _ => "a") {}).2.2.2 (fun _ => List.sorted_nil) "f"

/-- C4: with a truthy tag, deregistration removes exactly the first record of
the event's list whose tag strictly equals the supplied tag (`List.eraseP`),
leaves every other record and every other event unchanged, and is the
identity when no record matches. -/
theorem off_removes_first_matching_tag (γ α ρ : Type) (s : Store γ α ρ)
    (ev : String) (t : Option String) (ht : ¬(t = none ∨ t = some "")) :
    off s ev t ev = (s ev).eraseP (fun r => decide (r.tag = t)) ∧
    (∀ e, e ≠ ev → off s ev t e = s e) ∧
    ((∀ r ∈ s ev, r.tag ≠ t) → off s ev t = s) :=
  ⟨off_apply_self s ev t ht, fun e he => off_apply_other s ev t e he,
   off_no_match s ev t⟩

/-- Witness for C4 on a store with two records sharing tag `"t"`: only the
first (priority 9) is removed. -/
theorem off_removes_first_matching_tag_witness :
    off twoTagStore "e" (some "t") "e" =
      (twoTagStore "e").eraseP (fun r => decide (r.tag = some "t")) :=
  (off_removes_first_matching_tag Nat Nat String twoTagStore "e" (some "t")
    (by decide)).1

/-- C6: dispatching an event whose handler list is absent (modelled by the
empty list) returns the empty result sequence and leaves the store untouched
(no handler is invoked); deregistering with a falsy tag (`undefined` or the
empty string), with an unknown event name, or with a tag no record carries is
a silent no-op on the store. -/
theorem emit_off_noop_conditions (γ α ρ : Type) (s : Store γ α ρ) (ev : String)
    (args : List α) (t : Option String) :
    (s ev = [] → emit s ev args = ([], s)) ∧
    off s ev none = s ∧
    off s ev (some "") = s ∧
    (s ev = [] → off s ev t = s) ∧
    ((∀ r ∈ s ev, r.tag ≠ t) → off s ev t = s) := by
  refine ⟨emit_empty s ev args, off_falsy_none s ev, off_falsy_empty s ev,
    ?_, off_no_match s ev t⟩
  intro h0
  refine off_no_match s ev t fun r hr => ?_
  rw [h0] at hr
  cases hr

/-- Witness for C6 at the empty store. -/
theorem emit_off_noop_conditions_witness :
    emit (emptyStore Nat Nat String) "e" [] = ([], emptyStore Nat Nat String) :=
  (emit_off_noop_conditions Nat Nat String (emptyStore Nat Nat String) "e" []
    (some "t")).1 rfl

/-- C7: the recorded priority of a registration equals the supplied priority
when it is truthy and is 10 when the priority option is unset or falsy; in
particular an explicit priority 0 is replaced by the default 10.  The record
inserted by `on` is exactly this `mkHandler` record. -/
theorem priority_defaults_to_ten (γ α ρ : Type) (self : γ)
    (cb : Callable γ α ρ) (opts : Options γ) (s : Store γ α ρ) (ev : String) :
    (mkHandler self cb { opts with priority := none }).priority = 10 ∧
    (mkHandler self cb { opts with priority := some 0 }).priority = 10 ∧
    (∀ p : Int, p ≠ 0 →
      (mkHandler self cb { opts with priority := some p }).priority = p) ∧
    («on» s self ev cb opts ev).Perm (s ev ++ [mkHandler self cb opts]) := by
  refine ⟨rfl, by simp [mkHandler], ?_, on_perm s self ev cb opts⟩
  intro p hp
  simp [mkHandler, hp]

/-- Witness for C7: a supplied nonzero priority (5) is recorded as-is. -/
theorem priority_defaults_to_ten_witness :
    (mkHandler 0 ((Callable.pure fun _ _ => "a") : Callable Nat Nat String)
      { ({} : Options Nat) with priority := some 5 }).priority = 5 :=
  (priority_defaults_to_ten Nat Nat String 0 (.pure fun _ _ => "a") {}
    (emptyStore Nat Nat String) "e").2.2.1 5 (by decide)

/-- C8: a handler registered without an explicit context has the registering
object as its recorded context, one registered with an explicit context has
that value; at dispatch each handler is invoked with its recorded context
bound as receiver (the first argument of its function), and under private
storage the dispatching object is irrelevant to dispatch. -/
theorem context_binding (γ α ρ : Type) (self c : γ) (cb : Callable γ α ρ)
    (opts : Options γ) (s : Store γ α ρ) (ev : String) (args : List α) :
    (mkHandler self cb { opts with context := none }).context = self ∧
    (mkHandler self cb { opts with context := some c }).context = c ∧
    ((∀ r ∈ s ev, r.callable.isPure = true) →
      (emit s ev args).1 = (s ev).map (fun r => retOf r.callable r.context args)) ∧
    (∀ x y : γ, emitPrivate s x ev args = emitPrivate s y ev args) := by
  exact ⟨rfl, rfl, fun hp => emit_retvals_pure s ev args hp, fun x y => rfl⟩

/-- Witness for C8 at the example store. -/
theorem context_binding_witness :
    (emit exampleStoreAB "e" ([] : List Nat)).1 =
      (exampleStoreAB "e").map (fun r => retOf r.callable r.context []) :=
  (context_binding Nat Nat String 0 0 (.pure fun _ _ => "a") {} exampleStoreAB
    "e" []).2.2.1 (by decide)

/-- C9: the register-once operation sets `once := true` on the very options
record the caller passed (modelled by returning the caller-visible post-state
of that record), leaves its other fields unchanged, and delegates to the
register operation with exactly that mutated record. -/
theorem once_mutates_caller_options (γ α ρ : Type) (s : Store γ α ρ) (self : γ)
    (ev : String) (cb : Callable γ α ρ) (options : Options γ) :
    (once s self ev cb options).2 = { options with once := some true } ∧
    (once s self ev cb options).2.once = some true ∧
    (once s self ev cb options).2.tag = options.tag ∧
    (once s self ev cb options).2.priority = options.priority ∧
    (once s self ev cb options).2.context = options.context ∧
    (once s self ev cb options).1 =
      «on» s self ev cb { options with once := some true } :=
  ⟨rfl, rfl, rfl, rfl, rfl, rfl⟩

/-- C2: a (non-re-entrant) handler registered via the register-once operation
is invoked exactly once across dispatch calls for its event: the once-flagged
record is inserted, the first dispatch maps over the list containing it (so
its return value is in the result), the post-dispatch list is the old list
with every once-flagged record — this one included — removed after all
invocations, and a subsequent dispatch maps over that reduced list, excluding
its contribution. -/
theorem once_handler_runs_exactly_once (γ α ρ : Type) (s : Store γ α ρ)
    (self : γ) (ev : String) (f : γ → List α → ρ) (opts : Options γ)
    (args args' : List α) (hp : ∀ q ∈ s ev, q.callable.isPure = true) :
    mkHandler self (.pure f) { opts with once := some true } ∈
        (once s self ev (.pure f) opts).1 ev ∧
    (mkHandler self (.pure f) { opts with once := some true }).once = true ∧
    (emit ((once s self ev (.pure f) opts).1) ev args).1 =
      ((once s self ev (.pure f) opts).1 ev).map
        (fun q => retOf q.callable q.context args) ∧
    f (opts.context.getD self) args ∈
      (emit ((once s self ev (.pure f) opts).1) ev args).1 ∧
    (emit ((once s self ev (.pure f) opts).1) ev args).2 ev =
      ((once s self ev (.pure f) opts).1 ev).filter (fun q => !q.once) ∧
    mkHandler self (.pure f) { opts with once := some true } ∉
      (emit ((once s self ev (.pure f) opts).1) ev args).2 ev ∧
    (emit ((emit ((once s self ev (.pure f) opts).1) ev args).2) ev args').1 =
      (((once s self ev (.pure f) opts).1 ev).filter (fun q => !q.once)).map
        (fun q => retOf q.callable q.context args') := by
  have hpure1 : ∀ q ∈ (once s self ev (.pure f) opts).1 ev,
      q.callable.isPure = true :=
    pure_store_on s self ev (.pure f) { opts with once := some true } rfl hp
  have hmem : mkHandler self (.pure f) { opts with once := some true } ∈
      (once s self ev (.pure f) opts).1 ev :=
    mem_on_self s self ev (.pure f) { opts with once := some true }
  have hretv := emit_retvals_pure ((once s self ev (.pure f) opts).1) ev args hpure1
  have hstore : (emit ((once s self ev (.pure f) opts).1) ev args).2 ev =
      ((once s self ev (.pure f) opts).1 ev).filter (fun q => !q.once) := by
    rw [emit_store_pure ((once s self ev (.pure f) opts).1) ev args hpure1 ev]
    simp
  have hpure2 : ∀ q ∈ (emit ((once s self ev (.pure f) opts).1) ev args).2 ev,
      q.callable.isPure = true := by
    intro q hq
    rw [hstore] at hq
    exact hpure1 q (List.mem_of_mem_filter hq)
  refine ⟨hmem, rfl, hretv, ?_, hstore, ?_, ?_⟩
  · rw [hretv]
    exact List.mem_map_of_mem _ hmem
  · intro hbad
    have hfalse := emit_no_once ((once s self ev (.pure f) opts).1) ev args _ hbad
    simp [mkHandler] at hfalse
  · rw [emit_retvals_pure ((emit ((once s self ev (.pure f) opts).1) ev args).2)
      ev args' hpure2, hstore]

/-- Witness for C2: registering a once handler returning `"x"` into the empty
store; the first dispatch result contains `"x"`. -/
theorem once_handler_runs_exactly_once_witness :
    "x" ∈ (emit ((once (emptyStore Nat Nat String) 0 "e" (.pure fun _ _ => "x")
      {}).1) "e" ([] : List Nat)).1 :=
  (once_handler_runs_exactly_once Nat Nat String (emptyStore Nat Nat String) 0
    "e" (fun _ _ => "x") {} [] [] (by decide)).2.2.2.1

/-- C5: under the private-storage policy a single store is shared by every
host composing the capability instance: registrations through two hosts merge
into one list (the union, re-sorted by priority descending), and dispatch is
independent of which host triggers it, invoking that merged list.  Under the
public-storage policy, two distinct hosts own disjoint stores: a registration
through one host leaves the other host's store — and hence its dispatch
results — unchanged. -/
theorem private_storage_shared_public_isolated :
    (∀ (γ α ρ : Type) (s : Store γ α ρ) (h1 h2 : γ) (ev : String)
        (cb1 cb2 : Callable γ α ρ) (o1 o2 : Options γ),
        ((«on» («on» s h1 ev cb1 o1) h2 ev cb2 o2) ev).Perm
          (s ev ++ [mkHandler h1 cb1 o1, mkHandler h2 cb2 o2]) ∧
        List.Sorted hsle ((«on» («on» s h1 ev cb1 o1) h2 ev cb2 o2) ev) ∧
        (∀ (x y : γ) (args : List α),
          emitPrivate («on» («on» s h1 ev cb1 o1) h2 ev cb2 o2) x ev args =
            emitPrivate («on» («on» s h1 ev cb1 o1) h2 ev cb2 o2) y ev args) ∧
        ((∀ r ∈ s ev, r.callable.isPure = true) → cb1.isPure = true →
          cb2.isPure = true → ∀ (x : γ) (args : List α),
          (emitPrivate («on» («on» s h1 ev cb1 o1) h2 ev cb2 o2) x ev args).1 =
            ((«on» («on» s h1 ev cb1 o1) h2 ev cb2 o2) ev).map
              (fun r => retOf r.callable r.context args))) ∧
    (∀ (γ α ρ : Type) [DecidableEq γ] (env : Env γ α ρ) (h1 h2 : γ)
        (ev : String) (cb : Callable γ α ρ) (o : Options γ), h1 ≠ h2 →
        (onPublic env h1 ev cb o) h2 = env h2 ∧
        (∀ (ev' : String) (args : List α),
          (emitPublic (onPublic env h1 ev cb o) h2 ev' args).1 =
            (emitPublic env h2 ev' args).1)) := by
  constructor
  · intro γ α ρ s h1 h2 ev cb1 cb2 o1 o2
    have hperm : ((«on» («on» s h1 ev cb1 o1) h2 ev cb2 o2) ev).Perm
        (s ev ++ [mkHandler h1 cb1 o1, mkHandler h2 cb2 o2]) := by
      have p2 := on_perm («on» s h1 ev cb1 o1) h2 ev cb2 o2
      have p1 := List.Perm.append_right [mkHandler h2 cb2 o2]
        (on_perm s h1 ev cb1 o1)
      have := p2.trans p1
      simpa using this
    refine ⟨hperm, on_sorted _ h2 ev cb2 o2, fun x y args => rfl, ?_⟩
    intro hp hc1 hc2 x args
    exact emit_retvals_pure _ ev args
      (pure_store_on _ h2 ev cb2 o2 hc2 (pure_store_on s h1 ev cb1 o1 hc1 hp))
  · intro γ α ρ _ env h1 h2 ev cb o hne
    have hsame : (onPublic env h1 ev cb o) h2 = env h2 := by
      unfold onPublic updateEnv
      rw [if_neg (Ne.symm hne)]
    refine ⟨hsame, fun ev' args => ?_⟩
    unfold emitPublic
    rw [hsame]

/-- Witness for C5: the purity conjunct of the private part at the empty
store, and the isolation conjunct of the public part for hosts 1 ≠ 2. -/
theorem private_storage_shared_public_isolated_witness :
    ((emitPrivate («on» («on» (emptyStore Nat Nat String) 1 "e"
        (.pure fun _ _ => "p") {}) 2 "e" (.pure fun _ _ => "q") {}) 1 "e"
        ([] : List Nat)).1 =
      ((«on» («on» (emptyStore Nat Nat String) 1 "e" (.pure fun _ _ => "p") {})
          2 "e" (.pure fun _ _ => "q") {}) "e").map
        (fun r => retOf r.callable r.context [])) ∧
    (onPublic (fun _ => emptyStore Nat Nat String) 1 "e"
        ((.pure fun _ _ => "p") : Callable Nat Nat String) {}) 2 =
      emptyStore Nat Nat String :=
  ⟨(private_storage_shared_public_isolated.1 Nat Nat String
      (emptyStore Nat Nat String) 1 2 "e" (.pure fun _ _ => "p")
      (.pure fun _ _ => "q") {} {}).2.2.2 (by decide) rfl rfl 1 [],
   (private_storage_shared_public_isolated.2 Nat Nat String
      (fun _ => emptyStore Nat Nat String) 1 2 "e" (.pure fun _ _ => "p") {}
      (by decide)).1⟩

/-- C10, counterexample: in `reentrantStore`, event `"e"` holds `recA`
(priority 10) and `recC` (priority 5); when invoked, `recA` registers a
once-flagged handler of priority 7 returning `"rb"`.  `forEach` captured
length 2, the nested registration re-sorts the live list to priorities
[10, 7, 5], so index 1 — the not-yet-visited slot inside the captured range —
now holds the newly added once record, and it IS invoked in that same
dispatch: the result sequence is `["ra", "rb"]`, where `"rb"` is returned
only by the newly registered record.  This refutes the claim that such a
record "was never invoked" and "is never invoked by any dispatch".  The
cleanup pass does remove it: the post-dispatch list holds exactly the
original two non-once records. -/
theorem reentrant_once_invoked_counterexample :
    (emit reentrantStore "e" []).1 = ["ra", "rb"] ∧
    ((emit reentrantStore "e" []).2 "e").map (fun r => (r.priority, r.once)) =
      [(10, false), (5, false)] := by
  constructor <;> decide

/-- C10, amended: if, during a dispatch of event E, an invoked handler
registers a new handler for E with the once flag set, the post-invocation
cleanup pass of that same dispatch removes the newly added once-flagged
record — whether or not the in-progress iteration reached it — so the record
is gone from the list once the dispatch returns (first conjunct: after any
dispatch, no once-flagged record remains on the dispatched event).  When the
re-sorted position of the new record falls outside the iteration range
captured at dispatch start (`lowReentrantStore`: the registering handler is
the only one, so the captured length is 1), the new record is indeed never
invoked: the dispatch returns only `["ra"]` and the post-dispatch list holds
only the original record. -/
theorem reentrant_once_removed_by_cleanup :
    (∀ (γ α ρ : Type) (s : Store γ α ρ) (ev : String) (args : List α),
        ∀ r ∈ (emit s ev args).2 ev, r.once = false) ∧
    (emit lowReentrantStore "e" []).1 = ["ra"] ∧
    ((emit lowReentrantStore "e" []).2 "e").map (fun r => (r.priority, r.once)) =
      [(10, false)] := by
  refine ⟨fun γ α ρ s ev args => emit_no_once s ev args, ?_, ?_⟩ <;> decide

/-- Witness for the amended C10: the membership hypothesis discharged at the
concrete post-dispatch store of `lowReentrantStore`, whose event list is
exactly `[recA]`. -/
theorem reentrant_once_removed_by_cleanup_witness : recA.once = false :=
  reentrant_once_removed_by_cleanup.1 Nat Nat String lowReentrantStore "e" []
    recA (by show recA ∈ [recA]; exact List.mem_singleton_self recA)

end CaptainHook
